import Mathlib

/-!
# cert-manager: ACME account registry and the `Order` apply configuration

A verification development over three parts of the repository.

* `pkg/acme/accounts`: the account registry.  Only the stub `FakeRegistry`
  (`pkg/acme/accounts/test/registry.go`) is available; it fixes the method set
  of the `accounts.Registry` interface.  The behaviour of the real registry is
  modelled from the specification text (sections 3, 4.1 and 7).
* `pkg/client/applyconfigurations/acme/v1/order.go`: the generated builder
  `OrderApplyConfiguration`, embedded function by function.
* `pkg/acme/accounts/test/registry.go`: the stub `FakeRegistry` itself, whose
  methods call function-valued fields; a call is embedded as a function on the
  state of the world that may panic.

Go values are embedded as follows: a pointer field is an `Option` (`none` is
`nil`), a slice is an `Option` of a slice header (pointer, length, capacity;
`none` is the nil slice) over a heap that holds the cells of all backing arrays
of the element type, so that slices may share storage, a
`map[string]string` is an `Option` of an association list with distinct keys
(`none` is the nil map), a method with a pointer receiver is a function from
the receiver's state to its new state, and a Go panic is `Except.error`.
-/

namespace CertManager

/-! ## Part 1: the account registry (`pkg/acme/accounts`) -/

namespace Accounts

/-- Modelled from the spec: the error taxonomy of section 7.  The registry
source is not available; these are the failure causes the specification names. -/
inductive RegistryError where
  | NotFound
  | RegistrationFailed
  | TransientProtocolError
  | AuthorizationFailed
  | OrderInvalid
  | Canceled
  deriving DecidableEq

/-- Modelled from the spec: `NewClientOptions` of section 3, "directory URL, CA
bundle / TLS trust override, private key material, contact email,
external-account-binding key ID and key (optional), user-agent string".  The
key type is a parameter (`*rsa.PrivateKey` in the interface). -/
structure NewClientOptions (Key : Type) where
  directoryURL : String
  caBundle : List Nat
  privateKey : Key
  email : String
  eabKeyID : Option String
  eabKey : Option String
  userAgent : String

/-- Modelled from the spec: `ClientEntry` of section 3, a client handle together
with the credential fingerprint it was registered under. -/
structure ClientEntry (Client : Type) where
  client : Client
  credentialFingerprint : String

/-- Modelled from the spec: the `Registry` of section 3, a mapping from tenant
identifier to `ClientEntry`. -/
abbrev Registry (Client : Type) := AList (fun _ : String => ClientEntry Client)

/-- Modelled from the spec: what one `AddClient` call leaves behind: the
registry after the call, the failure reported to the caller (if any), and the
number of account-registration network calls the call performed. -/
structure AddClientOutcome (Client : Type) where
  registry : Registry Client
  failure : Option RegistryError
  registrations : Nat

/-- Modelled from the spec: the build path of `AddClient` (section 4.1, "build a
client from `options`, perform account registration, insert the entry.  Failure
is reported to the caller; no entry is inserted").  `register` is the answer of
the certificate authority to the registration of `options`. -/
def buildAndRegister {Key Client : Type}
    (fingerprint : NewClientOptions Key → String)
    (register : NewClientOptions Key → Except RegistryError Client)
    (r : Registry Client) (tenantID : String) (options : NewClientOptions Key) :
    AddClientOutcome Client :=
  match register options with
  | .ok c =>
      { registry := r.insert tenantID ⟨c, fingerprint options⟩, failure := none,
        registrations := 1 }
  | .error e => { registry := r, failure := some e, registrations := 1 }

/-- Modelled from the spec: `AddClient(tenantID, options)` of section 4.1.  No
entry: build and register.  Entry with the fingerprint implied by `options`:
no-op without any network call.  Entry with another fingerprint: build exactly
as in the no-entry case and replace the entry. -/
def AddClient {Key Client : Type}
    (fingerprint : NewClientOptions Key → String)
    (register : NewClientOptions Key → Except RegistryError Client)
    (r : Registry Client) (tenantID : String) (options : NewClientOptions Key) :
    AddClientOutcome Client :=
  match r.lookup tenantID with
  | none => buildAndRegister fingerprint register r tenantID options
  | some entry =>
      if entry.credentialFingerprint = fingerprint options then
        { registry := r, failure := none, registrations := 0 }
      else buildAndRegister fingerprint register r tenantID options

/-- Modelled from the spec: `RemoveClient(tenantID)` of section 4.1, "deletes the
entry if present; no error if absent". -/
def RemoveClient {Client : Type} (r : Registry Client) (tenantID : String) :
    Registry Client :=
  r.erase tenantID

/-- Modelled from the spec: `GetClient(tenantID)` of section 4.1, "pure read;
fails with `NotFound` when absent". -/
def GetClient {Client : Type} (r : Registry Client) (tenantID : String) :
    Except RegistryError Client :=
  match r.lookup tenantID with
  | some entry => .ok entry.client
  | none => .error RegistryError.NotFound

/-- Modelled from the spec: `IsKeyCheckSumCached(lastFingerprint, privateKey)` of
section 4.1, "computes the fingerprint of `privateKey` and reports whether it
equals `lastFingerprint`".  The hash is the parameter `keyFingerprint`. -/
def IsKeyCheckSumCached {Key : Type} (keyFingerprint : Key → String)
    (lastFingerprint : String) (privateKey : Key) : Bool :=
  decide (lastFingerprint = keyFingerprint privateKey)

/-- Two sequential `AddClient` calls for one tenant: the outcome of the second
call, run on the registry the first call left behind. -/
def addClientTwice {Key Client : Type}
    (fingerprint : NewClientOptions Key → String)
    (register₁ register₂ : NewClientOptions Key → Except RegistryError Client)
    (r : Registry Client) (tenantID : String) (o₁ o₂ : NewClientOptions Key) :
    AddClientOutcome Client × AddClientOutcome Client :=
  let first := AddClient fingerprint register₁ r tenantID o₁
  (first, AddClient fingerprint register₂ first.registry tenantID o₂)

/-- Sample option set used at concrete inputs: the key and the contact vary. -/
def sampleOptions (key email : String) : NewClientOptions String :=
  { directoryURL := "https://ca.example/directory", caBundle := [], privateKey := key,
    email := email, eabKeyID := none, eabKey := none, userAgent := "cert-manager" }

/-- Sample key fingerprint used at concrete inputs: the key text behind a tag. -/
def sampleKeyFingerprint (key : String) : String :=
  "fp:" ++ key

/-- Sample fingerprint implied by an option set: the fingerprint of its key. -/
def sampleFingerprint (o : NewClientOptions String) : String :=
  sampleKeyFingerprint o.privateKey

/-- Certificate authority that rejects every registration. -/
def rejectingCA (_ : NewClientOptions String) : Except RegistryError String :=
  .error RegistryError.RegistrationFailed

/-- Certificate authority that accepts every registration and names the client
after the contact. -/
def acceptingCA (o : NewClientOptions String) : Except RegistryError String :=
  .ok o.email

end Accounts

/-! ## Go maps and slices -/

namespace Go

/-- The entries of a non-nil `map[string]string`: an association list whose keys
are pairwise distinct, read in one of the orders a `range` loop may visit. -/
abbrev StringMap := AList (fun _ : String => String)

/-- Go `map[string]string`; `none` is the nil map. -/
abbrev Map := Option StringMap

/-- The memory that holds the elements of every array of element type `α`: the
cell at each address, and the number of cells allocated so far. -/
structure Heap (α : Type) where
  cells : Nat → α
  size : Nat

/-- Go slice header: the address of the first element in the backing array, the
length, and the capacity (cells of the backing array from `ptr` on). -/
structure SliceHeader where
  ptr : Nat
  len : Nat
  cap : Nat
  deriving DecidableEq

/-- Go slice `[]α`; `none` is the nil slice.  The elements live in a `Heap α`. -/
abbrev Slice (_α : Type) := Option SliceHeader

/-- Go pointer `*α` into a `Heap α`: nil or the address of a cell. -/
abbrev Pointer (_α : Type) := Option Nat

/-- The entries a `range` loop over the map visits (none for the nil map). -/
def Map.range (m : Map) : List (Sigma fun _ : String => String) :=
  match m with
  | none => []
  | some s => s.entries

/-- Go `len(m)`. -/
def Map.len (m : Map) : Nat :=
  (Map.range m).length

/-- Go `v, ok := m[k]`: reading the nil map finds nothing. -/
def Map.get (m : Map) (k : String) : Option String :=
  match m with
  | none => none
  | some s => s.lookup k

/-- The header of a slice; the nil slice has length and capacity zero. -/
def Slice.header (s : Option SliceHeader) : SliceHeader :=
  match s with
  | none => ⟨0, 0, 0⟩
  | some hdr => hdr

/-- The elements of a slice, read from the heap (none for the nil slice). -/
def Slice.elems {α : Type} (h : Heap α) (s : Slice α) : List α :=
  (List.range (Slice.header s).len).map fun i => h.cells ((Slice.header s).ptr + i)

/-- Go `append(s, x)`.  With spare capacity the element is written in place into
the backing array, at the cell after the last element, and the length grows.
Without, a new array is allocated at the end of the heap, the elements are
copied, `x` is written after them and the rest is zeroed; how much spare
capacity the new array gets is the runtime's choice
`extra oldCapacity neededLength`. -/
def Slice.append {α : Type} [Inhabited α] (extra : Nat → Nat → Nat) (h : Heap α)
    (s : Slice α) (x : α) : Heap α × Slice α :=
  let hdr := Slice.header s
  if hdr.len < hdr.cap then
    ({ h with cells := fun a => if a = hdr.ptr + hdr.len then x else h.cells a },
      some { hdr with len := hdr.len + 1 })
  else
    let newcap := hdr.len + 1 + extra hdr.cap (hdr.len + 1)
    ({ cells := fun a =>
          if a < h.size then h.cells a
          else if a < h.size + hdr.len then h.cells (hdr.ptr + (a - h.size))
          else if a = h.size + hdr.len then x
          else default,
        size := h.size + newcap },
      some ⟨h.size, hdr.len + 1, newcap⟩)

/-- Go `for i := range values { target = append(target, values[i]) }`: the
header of `values` is read once, each `values[i]` is read from the heap when
its iteration runs. -/
def Slice.appendValues {α : Type} [Inhabited α] (extra : Nat → Nat → Nat) (h : Heap α)
    (target values : Slice α) : Heap α × Slice α :=
  (List.range (Slice.header values).len).foldl
    (fun st i => Slice.append extra st.1 st.2 (st.1.cells ((Slice.header values).ptr + i)))
    (h, target)

/-- A slice that the runtime could have handed out: its length is within its
capacity and its backing array lies in allocated memory. -/
def Slice.Valid {α : Type} (h : Heap α) (s : Slice α) : Prop :=
  (Slice.header s).len ≤ (Slice.header s).cap ∧
    (Slice.header s).ptr + (Slice.header s).cap ≤ h.size

/-- The address `a` is a cell of the unused capacity of `s`: in its backing
array, after its last element. -/
def Slice.InSpare (s : Option SliceHeader) (a : Nat) : Prop :=
  (Slice.header s).ptr + (Slice.header s).len ≤ a ∧
    a < (Slice.header s).ptr + (Slice.header s).cap

/-- The address `a` is the cell of an element of `s`. -/
def Slice.Holds (s : Option SliceHeader) (a : Nat) : Prop :=
  (Slice.header s).ptr ≤ a ∧ a < (Slice.header s).ptr + (Slice.header s).len

/-- No element of `values` is stored in the unused capacity of `target`. -/
def Slice.Apart (target values : Option SliceHeader) : Prop :=
  ∀ a, Slice.Holds values a → ¬ Slice.InSpare target a

/-- Every address in `R` is allocated and outside the unused capacity of `s`. -/
def Slice.Protects {α : Type} (h : Heap α) (s : Slice α) (R : Nat → Prop) : Prop :=
  ∀ a, R a → a < h.size ∧ ¬ Slice.InSpare s a

/-- The values the non-nil pointers of a list point to, read from the heap. -/
def pointees {α : Type} (h : Heap α) (values : List (Pointer α)) : List α :=
  (values.filterMap id).map h.cells

/-- A heap whose first cells are the given list; further cells are zero. -/
def Heap.ofList {α : Type} [Inhabited α] (l : List α) : Heap α :=
  { cells := fun a => l.getD a default, size := l.length }

/-- Sample growth policy used at concrete inputs: a new array gets no spare
capacity. -/
def exactFit (_ _ : Nat) : Nat := 0

end Go

/-! ## Part 2: `pkg/client/applyconfigurations/acme/v1/order.go` -/

namespace ApplyConfigurations

/-- The embedded `metav1.TypeMetaApplyConfiguration` (k8s.io/client-go): the two
fields `WithKind` and `WithAPIVersion` assign. -/
structure TypeMetaApplyConfiguration where
  Kind : Option String := none
  APIVersion : Option String := none

/-- The `metav1.OwnerReferenceApplyConfiguration` of k8s.io/client-go, the
element type of the `OwnerReferences` slice. -/
structure OwnerReferenceApplyConfiguration where
  APIVersion : Option String := none
  Kind : Option String := none
  Name : Option String := none
  UID : Option String := none
  Controller : Option Bool := none
  BlockOwnerDeletion : Option Bool := none

/-- The embedded `metav1.ObjectMetaApplyConfiguration` (k8s.io/client-go): one
field per setter of `order.go`.  `types.UID` is a string type, `int64` values
are integers, and `apismetav1.Time` is the parameter `Time`. -/
structure ObjectMetaApplyConfiguration (Time : Type) where
  Name : Option String := none
  GenerateName : Option String := none
  Namespace : Option String := none
  UID : Option String := none
  ResourceVersion : Option String := none
  Generation : Option Int := none
  CreationTimestamp : Option Time := none
  DeletionTimestamp : Option Time := none
  DeletionGracePeriodSeconds : Option Int := none
  Labels : Go.Map := none
  Annotations : Go.Map := none
  OwnerReferences : Go.Slice OwnerReferenceApplyConfiguration := none
  Finalizers : Go.Slice String := none

/-- The struct `OrderApplyConfiguration`: `TypeMeta` is embedded by value,
`ObjectMeta` is an embedded pointer, `Spec` and `Status` are pointers to the
types `OrderSpecApplyConfiguration` and `OrderStatusApplyConfiguration`, which
are the parameters `SpecT` and `StatusT`. -/
structure OrderApplyConfiguration (Time SpecT StatusT : Type) where
  TypeMeta : TypeMetaApplyConfiguration := {}
  ObjectMeta : Option (ObjectMetaApplyConfiguration Time) := none
  Spec : Option SpecT := none
  Status : Option StatusT := none

variable {Time SpecT StatusT : Type}

/-- Go `ensureObjectMetaApplyConfigurationExists`: allocate the embedded
`ObjectMeta` when it is nil. -/
def ensureObjectMetaApplyConfigurationExists
    (b : OrderApplyConfiguration Time SpecT StatusT) :
    OrderApplyConfiguration Time SpecT StatusT :=
  match b.ObjectMeta with
  | none => { b with ObjectMeta := some {} }
  | some _ => b

/-- The access `b.ObjectMetaApplyConfiguration.<field>` through the embedded
pointer: panics when the pointer is nil. -/
def derefObjectMeta (b : OrderApplyConfiguration Time SpecT StatusT) :
    Except String (ObjectMetaApplyConfiguration Time) :=
  match b.ObjectMeta with
  | none => .error "invalid memory address or nil pointer dereference"
  | some m => .ok m

/-- Go `WithKind`. -/
def WithKind (b : OrderApplyConfiguration Time SpecT StatusT) (value : String) :
    OrderApplyConfiguration Time SpecT StatusT :=
  { b with TypeMeta := { b.TypeMeta with Kind := some value } }

/-- Go `WithAPIVersion`. -/
def WithAPIVersion (b : OrderApplyConfiguration Time SpecT StatusT) (value : String) :
    OrderApplyConfiguration Time SpecT StatusT :=
  { b with TypeMeta := { b.TypeMeta with APIVersion := some value } }

/-- Go `WithName`. -/
def WithName (b : OrderApplyConfiguration Time SpecT StatusT) (value : String) :
    Except String (OrderApplyConfiguration Time SpecT StatusT) := do
  let b := ensureObjectMetaApplyConfigurationExists b
  let m ← derefObjectMeta b
  pure { b with ObjectMeta := some { m with Name := some value } }

/-- Go `WithGenerateName`. -/
def WithGenerateName (b : OrderApplyConfiguration Time SpecT StatusT) (value : String) :
    Except String (OrderApplyConfiguration Time SpecT StatusT) := do
  let b := ensureObjectMetaApplyConfigurationExists b
  let m ← derefObjectMeta b
  pure { b with ObjectMeta := some { m with GenerateName := some value } }

/-- Go `WithNamespace`. -/
def WithNamespace (b : OrderApplyConfiguration Time SpecT StatusT) (value : String) :
    Except String (OrderApplyConfiguration Time SpecT StatusT) := do
  let b := ensureObjectMetaApplyConfigurationExists b
  let m ← derefObjectMeta b
  pure { b with ObjectMeta := some { m with Namespace := some value } }

/-- Go `WithUID`. -/
def WithUID (b : OrderApplyConfiguration Time SpecT StatusT) (value : String) :
    Except String (OrderApplyConfiguration Time SpecT StatusT) := do
  let b := ensureObjectMetaApplyConfigurationExists b
  let m ← derefObjectMeta b
  pure { b with ObjectMeta := some { m with UID := some value } }

/-- Go `WithResourceVersion`. -/
def WithResourceVersion (b : OrderApplyConfiguration Time SpecT StatusT) (value : String) :
    Except String (OrderApplyConfiguration Time SpecT StatusT) := do
  let b := ensureObjectMetaApplyConfigurationExists b
  let m ← derefObjectMeta b
  pure { b with ObjectMeta := some { m with ResourceVersion := some value } }

/-- Go `WithGeneration`. -/
def WithGeneration (b : OrderApplyConfiguration Time SpecT StatusT) (value : Int) :
    Except String (OrderApplyConfiguration Time SpecT StatusT) := do
  let b := ensureObjectMetaApplyConfigurationExists b
  let m ← derefObjectMeta b
  pure { b with ObjectMeta := some { m with Generation := some value } }

/-- Go `WithCreationTimestamp`. -/
def WithCreationTimestamp (b : OrderApplyConfiguration Time SpecT StatusT) (value : Time) :
    Except String (OrderApplyConfiguration Time SpecT StatusT) := do
  let b := ensureObjectMetaApplyConfigurationExists b
  let m ← derefObjectMeta b
  pure { b with ObjectMeta := some { m with CreationTimestamp := some value } }

/-- Go `WithDeletionTimestamp`. -/
def WithDeletionTimestamp (b : OrderApplyConfiguration Time SpecT StatusT) (value : Time) :
    Except String (OrderApplyConfiguration Time SpecT StatusT) := do
  let b := ensureObjectMetaApplyConfigurationExists b
  let m ← derefObjectMeta b
  pure { b with ObjectMeta := some { m with DeletionTimestamp := some value } }

/-- Go `WithDeletionGracePeriodSeconds`. -/
def WithDeletionGracePeriodSeconds (b : OrderApplyConfiguration Time SpecT StatusT)
    (value : Int) : Except String (OrderApplyConfiguration Time SpecT StatusT) := do
  let b := ensureObjectMetaApplyConfigurationExists b
  let m ← derefObjectMeta b
  pure { b with ObjectMeta := some { m with DeletionGracePeriodSeconds := some value } }

/-- The zero value of `OwnerReferenceApplyConfiguration`: every field nil. -/
instance : Inhabited OwnerReferenceApplyConfiguration := ⟨{}⟩

/-- One iteration of the loop of `WithOwnerReferences`: panic on a nil value,
otherwise append the value the pointer points to when the iteration runs. -/
def appendOwnerReference (extra : Nat → Nat → Nat)
    (st : Go.Heap OwnerReferenceApplyConfiguration × Go.Slice OwnerReferenceApplyConfiguration)
    (value : Go.Pointer OwnerReferenceApplyConfiguration) :
    Except String
      (Go.Heap OwnerReferenceApplyConfiguration × Go.Slice OwnerReferenceApplyConfiguration) :=
  match value with
  | none => .error "nil value passed to WithOwnerReferences"
  | some p => .ok (Go.Slice.append extra st.1 st.2 (st.1.cells p))

/-- Go `WithOwnerReferences`; the variadic argument is the list of pointers, and
`h` is the memory of owner references the pointers and the `OwnerReferences`
slice point into. -/
def WithOwnerReferences (extra : Nat → Nat → Nat)
    (h : Go.Heap OwnerReferenceApplyConfiguration)
    (b : OrderApplyConfiguration Time SpecT StatusT)
    (values : List (Go.Pointer OwnerReferenceApplyConfiguration)) :
    Except String
      (Go.Heap OwnerReferenceApplyConfiguration × OrderApplyConfiguration Time SpecT StatusT) := do
  let b := ensureObjectMetaApplyConfigurationExists b
  let m ← derefObjectMeta b
  let st ← values.foldlM (appendOwnerReference extra) (h, m.OwnerReferences)
  pure (st.1, { b with ObjectMeta := some { m with OwnerReferences := st.2 } })

/-- Go `WithFinalizers`; the variadic argument is a slice of strings, and `h` is
the memory of strings that it and the `Finalizers` slice point into. -/
def WithFinalizers (extra : Nat → Nat → Nat) (h : Go.Heap String)
    (b : OrderApplyConfiguration Time SpecT StatusT) (values : Go.Slice String) :
    Except String (Go.Heap String × OrderApplyConfiguration Time SpecT StatusT) := do
  let b := ensureObjectMetaApplyConfigurationExists b
  let m ← derefObjectMeta b
  let st := Go.Slice.appendValues extra h m.Finalizers values
  pure (st.1, { b with ObjectMeta := some { m with Finalizers := st.2 } })

/-- Go `WithSpec`; the argument is a pointer and may be nil. -/
def WithSpec (b : OrderApplyConfiguration Time SpecT StatusT) (value : Option SpecT) :
    OrderApplyConfiguration Time SpecT StatusT :=
  { b with Spec := value }

/-- Go `WithStatus`; the argument is a pointer and may be nil. -/
def WithStatus (b : OrderApplyConfiguration Time SpecT StatusT) (value : Option StatusT) :
    OrderApplyConfiguration Time SpecT StatusT :=
  { b with Status := value }

/-- Go `Order(name, namespace)`: the four setters applied to the zero value. -/
def Order (name namespace_ : String) :
    Except String (OrderApplyConfiguration Time SpecT StatusT) := do
  let b : OrderApplyConfiguration Time SpecT StatusT := {}
  let b ← WithName b name
  let b ← WithNamespace b namespace_
  let b := WithKind b "Order"
  let b := WithAPIVersion b "acme.cert-manager.io/v1"
  pure b

/-- Read a field of the embedded `ObjectMeta`; nil when `ObjectMeta` is nil or
the field is. -/
def metaField {α : Type} (f : ObjectMetaApplyConfiguration Time → Option α)
    (b : OrderApplyConfiguration Time SpecT StatusT) : Option α :=
  b.ObjectMeta.bind f

/-- The `Finalizers` slice of a configuration. -/
def finalizersOf (b : OrderApplyConfiguration Time SpecT StatusT) : Go.Slice String :=
  metaField (fun m => m.Finalizers) b

/-- The `OwnerReferences` slice of a configuration. -/
def ownerReferencesOf (b : OrderApplyConfiguration Time SpecT StatusT) :
    Go.Slice OwnerReferenceApplyConfiguration :=
  metaField (fun m => m.OwnerReferences) b

/-- The chained call `b.WithX(v₁).WithX(v₂)` of a setter that may panic: the
second call runs on the receiver the first call returned. -/
def twice {α : Type}
    (setter : OrderApplyConfiguration Time SpecT StatusT → α →
      Except String (OrderApplyConfiguration Time SpecT StatusT))
    (b : OrderApplyConfiguration Time SpecT StatusT) (v₁ v₂ : α) :
    Except String (OrderApplyConfiguration Time SpecT StatusT) :=
  setter b v₁ >>= fun c => setter c v₂

/-- Sample owner reference used at concrete inputs. -/
def sampleOwner (name : String) : OwnerReferenceApplyConfiguration :=
  { APIVersion := some "cert-manager.io/v1", Kind := some "Certificate", Name := some name }

/-- Sample memory of strings: the array `base = [a b c]` at addresses 0 to 2,
then two further strings `x`, `y` in arrays of their own. -/
def sampleStrings : Go.Heap String :=
  Go.Heap.ofList ["a", "b", "c", "x", "y"]

/-- Sample configuration whose `Finalizers` is `base[:2]`: the elements `a`, `b`
with `c` in the one cell of unused capacity. -/
def sampleFinalized : OrderApplyConfiguration Unit Unit Unit :=
  { ObjectMeta := some { Finalizers := some ⟨0, 2, 3⟩ } }

/-- Sample memory of owner references: the array `refs = [A B]` at addresses 0
and 1, then a further owner reference `X` on its own. -/
def sampleOwners : Go.Heap OwnerReferenceApplyConfiguration :=
  Go.Heap.ofList [sampleOwner "A", sampleOwner "B", sampleOwner "X"]

/-- Sample configuration whose `OwnerReferences` is `refs[:1]`: the element `A`
with `B` in the one cell of unused capacity. -/
def sampleOwned : OrderApplyConfiguration Unit Unit Unit :=
  { ObjectMeta := some { OwnerReferences := some ⟨0, 1, 2⟩ } }

end ApplyConfigurations

/-! ## Part 3: the stub registry (`pkg/acme/accounts/test/registry.go`) -/

namespace AccountsTest

/-- A Go call seen from its caller: it runs on the state `σ` of the world (the
variables a closure captured, the network, ...) and either panics or returns a
value together with the state it leaves behind. -/
abbrev Effect (σ α : Type) := σ → Except String (α × σ)

/-- Calling a nil function value panics. -/
def nilCall {σ α : Type} : Effect σ α :=
  fun _ => .error "invalid memory address or nil pointer dereference"

/-- The struct `FakeRegistry`: five fields of function type, each nil (`none`)
or set.  `accounts.NewClientOptions`, `rsa.PrivateKey`, `acmecl.Interface` and
`error` are the parameters `Options`, `Key`, `Client` and `Err`; a pointer or
interface value may be nil, and `map[string]acmecl.Interface` may be the nil
map. -/
structure FakeRegistry (σ Options Key Client Err : Type) where
  AddClientFunc : Option (String → Options → Effect σ Unit) := none
  RemoveClientFunc : Option (String → Effect σ Unit) := none
  GetClientFunc : Option (String → Effect σ (Option Client × Option Err)) := none
  ListClientsFunc : Option (Effect σ (Option (AList fun _ : String => Option Client))) := none
  IsKeyCheckSumCachedFunc : Option (String → Option Key → Effect σ Bool) := none

variable {σ Options Key Client Err : Type}

/-- Go `(*FakeRegistry).AddClient`: `f.AddClientFunc(uid, options)`. -/
def FakeRegistry.AddClient (f : FakeRegistry σ Options Key Client Err) (uid : String)
    (options : Options) : Effect σ Unit :=
  match f.AddClientFunc with
  | none => nilCall
  | some stub => stub uid options

/-- Go `(*FakeRegistry).RemoveClient`: `f.RemoveClientFunc(uid)`. -/
def FakeRegistry.RemoveClient (f : FakeRegistry σ Options Key Client Err) (uid : String) :
    Effect σ Unit :=
  match f.RemoveClientFunc with
  | none => nilCall
  | some stub => stub uid

/-- Go `(*FakeRegistry).GetClient`: `return f.GetClientFunc(uid)`. -/
def FakeRegistry.GetClient (f : FakeRegistry σ Options Key Client Err) (uid : String) :
    Effect σ (Option Client × Option Err) :=
  match f.GetClientFunc with
  | none => nilCall
  | some stub => stub uid

/-- Go `(*FakeRegistry).ListClients`: `return f.ListClientsFunc()`. -/
def FakeRegistry.ListClients (f : FakeRegistry σ Options Key Client Err) :
    Effect σ (Option (AList fun _ : String => Option Client)) :=
  match f.ListClientsFunc with
  | none => nilCall
  | some stub => stub

/-- Go `(*FakeRegistry).IsKeyCheckSumCached`:
`return f.IsKeyCheckSumCachedFunc(lastPrivateKeyHash, privateKey)`. -/
def FakeRegistry.IsKeyCheckSumCached (f : FakeRegistry σ Options Key Client Err)
    (lastPrivateKeyHash : String) (privateKey : Option Key) : Effect σ Bool :=
  match f.IsKeyCheckSumCachedFunc with
  | none => nilCall
  | some stub => stub lastPrivateKeyHash privateKey

/-- Sample stub for `AddClientFunc`: records its invocation and arguments in the
world, a log of invocations. -/
def recordAdd (uid options : String) : Effect (List (String × List String)) Unit :=
  fun log => .ok ((), log ++ [("AddClientFunc", [uid, options])])

/-- Sample stub for `RemoveClientFunc`: records its invocation and argument. -/
def recordRemove (uid : String) : Effect (List (String × List String)) Unit :=
  fun log => .ok ((), log ++ [("RemoveClientFunc", [uid])])

/-- Sample stub for `GetClientFunc`: records its invocation and answers with a
client named after the tenant and no error. -/
def recordGet (uid : String) :
    Effect (List (String × List String)) (Option String × Option String) :=
  fun log => .ok ((some ("client-" ++ uid), none), log ++ [("GetClientFunc", [uid])])

/-- Sample stub for `ListClientsFunc`: records its invocation and answers with
the nil map. -/
def recordList :
    Effect (List (String × List String)) (Option (AList fun _ : String => Option String)) :=
  fun log => .ok (none, log ++ [("ListClientsFunc", [])])

/-- Sample stub for `IsKeyCheckSumCachedFunc`: records its invocation and
answers whether a key was given. -/
def recordCached (lastPrivateKeyHash : String) (privateKey : Option Nat) :
    Effect (List (String × List String)) Bool :=
  fun log => .ok (privateKey.isSome, log ++ [("IsKeyCheckSumCachedFunc", [lastPrivateKeyHash])])

/-- Sample `FakeRegistry` with every stub field set to a recording stub. -/
def recordingRegistry : FakeRegistry (List (String × List String)) String Nat String String :=
  { AddClientFunc := some recordAdd, RemoveClientFunc := some recordRemove,
    GetClientFunc := some recordGet, ListClientsFunc := some recordList,
    IsKeyCheckSumCachedFunc := some recordCached }

end AccountsTest

/-! ## Lemmas on Go maps and slices -/

namespace Go

/-- The header of a non-nil slice is the header itself. -/
theorem Slice.header_some (hdr : SliceHeader) : Slice.header (some hdr) = hdr := rfl

/-- One `append` on a valid slice: the elements grow by `x`, the slice stays
valid, and every protected address keeps its content and stays protected. -/
theorem Slice.append_spec {α : Type} [Inhabited α] (extra : Nat → Nat → Nat) (h : Heap α)
    (s : Slice α) (x : α) (R : Nat → Prop) (hv : Slice.Valid h s)
    (hR : Slice.Protects h s R) :
    Slice.elems (Slice.append extra h s x).1 (Slice.append extra h s x).2 =
        Slice.elems h s ++ [x] ∧
      Slice.Valid (Slice.append extra h s x).1 (Slice.append extra h s x).2 ∧
      Slice.Protects (Slice.append extra h s x).1 (Slice.append extra h s x).2 R ∧
      ∀ a, R a → (Slice.append extra h s x).1.cells a = h.cells a := by
  obtain ⟨hlc, hpc⟩ := hv
  unfold Slice.Protects Slice.InSpare at hR ⊢
  unfold Slice.Valid Slice.elems
  unfold Slice.append
  generalize Slice.header s = hdr at *
  obtain ⟨p, l, c⟩ := hdr
  simp only at hlc hpc hR ⊢
  by_cases hlt : l < c
  · simp only [hlt, if_true, Slice.header_some]
    refine ⟨?_, ⟨by omega, hpc⟩, ?_, ?_⟩
    · rw [List.range_succ, List.map_append, List.map_cons, List.map_nil]
      congr 1
      · apply List.map_congr_left
        intro i hi
        have hi' : i < l := List.mem_range.mp hi
        have hne : ¬ (p + i = p + l) := by omega
        simp only [hne, if_false]
      · simp
    · intro a ha
      obtain ⟨h1, h2⟩ := hR a ha
      exact ⟨h1, fun hsp => h2 ⟨by omega, hsp.2⟩⟩
    · intro a ha
      obtain ⟨h1, h2⟩ := hR a ha
      have hne : ¬ (a = p + l) := fun heq => h2 ⟨by omega, by omega⟩
      simp only [hne, if_false]
  · simp only [hlt, if_false, Slice.header_some]
    refine ⟨?_, ⟨by omega, by omega⟩, ?_, ?_⟩
    · rw [List.range_succ, List.map_append, List.map_cons, List.map_nil]
      congr 1
      · apply List.map_congr_left
        intro i hi
        have hi' : i < l := List.mem_range.mp hi
        have h1 : ¬ (h.size + i < h.size) := by omega
        have h2 : h.size + i < h.size + l := by omega
        have h3 : h.size + i - h.size = i := by omega
        simp only [h1, h2, h3, if_false, if_true]
      · have h1 : ¬ (h.size + l < h.size) := by omega
        simp [h1]
    · intro a ha
      obtain ⟨h1, h2⟩ := hR a ha
      exact ⟨by omega, fun hsp => by omega⟩
    · intro a ha
      obtain ⟨h1, h2⟩ := hR a ha
      simp only [h1, if_true]

/-- Appending, one after the other, the cells found at a list of protected
addresses: the elements grow by the contents those addresses had at the start. -/
theorem Slice.foldl_append_spec {α : Type} [Inhabited α] (extra : Nat → Nat → Nat)
    (R : Nat → Prop) (addrs : List Nat) (h : Heap α) (s : Slice α)
    (hv : Slice.Valid h s) (hR : Slice.Protects h s R) (hin : ∀ a ∈ addrs, R a) :
    Slice.elems
        (addrs.foldl (fun st a => Slice.append extra st.1 st.2 (st.1.cells a)) (h, s)).1
        (addrs.foldl (fun st a => Slice.append extra st.1 st.2 (st.1.cells a)) (h, s)).2 =
        Slice.elems h s ++ addrs.map h.cells ∧
      Slice.Valid
        (addrs.foldl (fun st a => Slice.append extra st.1 st.2 (st.1.cells a)) (h, s)).1
        (addrs.foldl (fun st a => Slice.append extra st.1 st.2 (st.1.cells a)) (h, s)).2 ∧
      Slice.Protects
        (addrs.foldl (fun st a => Slice.append extra st.1 st.2 (st.1.cells a)) (h, s)).1
        (addrs.foldl (fun st a => Slice.append extra st.1 st.2 (st.1.cells a)) (h, s)).2 R ∧
      ∀ a, R a →
        (addrs.foldl (fun st a => Slice.append extra st.1 st.2 (st.1.cells a)) (h, s)).1.cells a
          = h.cells a := by
  induction addrs generalizing h s with
  | nil => exact ⟨by simp, hv, hR, fun _ _ => rfl⟩
  | cons a rest ih =>
    obtain ⟨he, hv', hR', hc⟩ := Slice.append_spec extra h s (h.cells a) R hv hR
    obtain ⟨ihe, ihv, ihR, ihc⟩ :=
      ih (Slice.append extra h s (h.cells a)).1 (Slice.append extra h s (h.cells a)).2 hv' hR'
        (fun x hx => hin x (List.mem_cons_of_mem _ hx))
    rw [List.foldl_cons]
    refine ⟨?_, ihv, ihR, fun x hx => (ihc x hx).trans (hc x hx)⟩
    rw [ihe, he, List.map_cons, List.append_assoc, List.singleton_append]
    congr 2
    apply List.map_congr_left
    intro x hx
    exact hc x (hin x (List.mem_cons_of_mem _ hx))

/-- The elements of a slice are the contents of its cells, so two heaps that
agree on the cells it holds give the same elements. -/
theorem Slice.elems_congr {α : Type} (h h' : Heap α) (s : Slice α)
    (hc : ∀ a, Slice.Holds s a → h'.cells a = h.cells a) :
    Slice.elems h' s = Slice.elems h s := by
  unfold Slice.elems
  apply List.map_congr_left
  intro i hi
  have hi' : i < (Slice.header s).len := List.mem_range.mp hi
  exact hc _ ⟨by omega, by omega⟩

/-- The loop `for i := range values { target = append(target, values[i]) }` on a
valid target whose unused capacity holds no protected address, every element of
`values` being protected: the target grows by the elements `values` had at the
start, and protected addresses keep their content and stay protected. -/
theorem Slice.appendValues_spec {α : Type} [Inhabited α] (extra : Nat → Nat → Nat)
    (R : Nat → Prop) (h : Heap α) (target values : Slice α)
    (hv : Slice.Valid h target) (hR : Slice.Protects h target R)
    (hin : ∀ a, Slice.Holds values a → R a) :
    Slice.elems (Slice.appendValues extra h target values).1
        (Slice.appendValues extra h target values).2 =
        Slice.elems h target ++ Slice.elems h values ∧
      Slice.Valid (Slice.appendValues extra h target values).1
        (Slice.appendValues extra h target values).2 ∧
      Slice.Protects (Slice.appendValues extra h target values).1
        (Slice.appendValues extra h target values).2 R ∧
      ∀ a, R a → (Slice.appendValues extra h target values).1.cells a = h.cells a := by
  have hfold : Slice.appendValues extra h target values =
      ((List.range (Slice.header values).len).map fun i => (Slice.header values).ptr + i).foldl
        (fun st a => Slice.append extra st.1 st.2 (st.1.cells a)) (h, target) := by
    rw [Slice.appendValues, List.foldl_map]
  have helems : Slice.elems h values =
      ((List.range (Slice.header values).len).map
        fun i => (Slice.header values).ptr + i).map h.cells := by
    rw [Slice.elems, List.map_map]
    rfl
  rw [hfold, helems]
  apply Slice.foldl_append_spec extra R _ h target hv hR
  intro a ha
  obtain ⟨i, hi, rfl⟩ := List.mem_map.mp ha
  have hi' : i < (Slice.header values).len := List.mem_range.mp hi
  exact hin _ ⟨by omega, by omega⟩

/-- The number of elements of a slice is its length. -/
theorem Slice.length_elems {α : Type} (h : Heap α) (s : Slice α) :
    (Slice.elems h s).length = (Slice.header s).len := by
  simp [Slice.elems]

/-- The append loop leaves the nil slice only if the target was nil and there
was nothing to append. -/
theorem Slice.appendValues_isNone {α : Type} [Inhabited α] (extra : Nat → Nat → Nat)
    (h : Heap α) (target values : Slice α) :
    (Slice.appendValues extra h target values).2.isNone = true ↔
      target.isNone = true ∧ (Slice.header values).len = 0 := by
  have key : ∀ (l : List Nat) (st : Heap α × Slice α),
      (l.foldl (fun st i =>
          Slice.append extra st.1 st.2 (st.1.cells ((Slice.header values).ptr + i))) st).2.isNone
        = true ↔ st.2.isNone = true ∧ l = [] := by
    intro l
    induction l with
    | nil => intro st; simp
    | cons i l ih =>
      intro st
      rw [List.foldl_cons, ih]
      have hsome : (Slice.append extra st.1 st.2
          (st.1.cells ((Slice.header values).ptr + i))).2.isNone = false := by
        unfold Slice.append
        by_cases hlt : (Slice.header st.2).len < (Slice.header st.2).cap
        · simp only [hlt, if_true, Option.isNone_some]
        · simp only [hlt, if_false, Option.isNone_some]
      simp [hsome]
  rw [Slice.appendValues, key]
  simp [List.range_eq_nil]

end Go

/-! ## Theorems on the account registry -/

namespace Accounts

/-- When the registry holds no entry for the tenant with the fingerprint of the
options, `AddClient` takes the build path. -/
theorem AddClient_eq_build {Key Client : Type}
    (fingerprint : NewClientOptions Key → String)
    (register : NewClientOptions Key → Except RegistryError Client)
    (r : Registry Client) (t : String) (o : NewClientOptions Key)
    (hnew : ∀ e, r.lookup t = some e → e.credentialFingerprint ≠ fingerprint o) :
    AddClient fingerprint register r t o = buildAndRegister fingerprint register r t o := by
  unfold AddClient
  cases hl : r.lookup t with
  | none => rfl
  | some e => simp [hnew e hl]

/-- C1 (as stated, refuted).  The two option sets have equal fingerprints, yet
with a certificate authority that rejects the registration the two calls on the
empty registry perform two registration calls, and on a registry that already
caches a client for the tenant under that fingerprint they perform none. -/
theorem addClient_twice_not_always_one :
    sampleFingerprint (sampleOptions "K1" "a@example.com") =
        sampleFingerprint (sampleOptions "K1" "b@example.com") ∧
      (addClientTwice sampleFingerprint rejectingCA rejectingCA ∅ "tenant-a"
          (sampleOptions "K1" "a@example.com") (sampleOptions "K1" "b@example.com")).1.registrations
        + (addClientTwice sampleFingerprint rejectingCA rejectingCA ∅ "tenant-a"
          (sampleOptions "K1" "a@example.com") (sampleOptions "K1" "b@example.com")).2.registrations
        = 2 ∧
      (addClientTwice sampleFingerprint acceptingCA acceptingCA
          (AList.singleton "tenant-a" ⟨"cached", "fp:K1"⟩) "tenant-a"
          (sampleOptions "K1" "a@example.com") (sampleOptions "K1" "b@example.com")).1.registrations
        + (addClientTwice sampleFingerprint acceptingCA acceptingCA
          (AList.singleton "tenant-a" ⟨"cached", "fp:K1"⟩) "tenant-a"
          (sampleOptions "K1" "a@example.com") (sampleOptions "K1" "b@example.com")).2.registrations
        = 0 := by
  refine ⟨rfl, ?_, ?_⟩ <;> decide

/-- C1 (amended).  For every tenant `t` and option sets `o₁`, `o₂` with equal
fingerprints, on a registry that holds no entry for `t` under that fingerprint
and with the first registration accepted by the certificate authority,
`AddClient(t, o₁)` then `AddClient(t, o₂)` perform exactly one registration call
in total: the second call performs none, reports no failure, leaves the registry
as the first call left it, and the cached client is the one registered first. -/
theorem addClient_twice_registers_once {Key Client : Type}
    (fingerprint : NewClientOptions Key → String)
    (register₁ register₂ : NewClientOptions Key → Except RegistryError Client)
    (r : Registry Client) (t : String) (o₁ o₂ : NewClientOptions Key) (c : Client)
    (hfp : fingerprint o₁ = fingerprint o₂)
    (hnew : ∀ e, r.lookup t = some e → e.credentialFingerprint ≠ fingerprint o₁)
    (hok : register₁ o₁ = .ok c) :
    (addClientTwice fingerprint register₁ register₂ r t o₁ o₂).1.registrations
        + (addClientTwice fingerprint register₁ register₂ r t o₁ o₂).2.registrations = 1 ∧
      (addClientTwice fingerprint register₁ register₂ r t o₁ o₂).2.registrations = 0 ∧
      (addClientTwice fingerprint register₁ register₂ r t o₁ o₂).2.failure = none ∧
      (addClientTwice fingerprint register₁ register₂ r t o₁ o₂).2.registry =
        (addClientTwice fingerprint register₁ register₂ r t o₁ o₂).1.registry ∧
      GetClient (addClientTwice fingerprint register₁ register₂ r t o₁ o₂).2.registry t =
        .ok c := by
  have hfirst : AddClient fingerprint register₁ r t o₁ =
      { registry := r.insert t ⟨c, fingerprint o₁⟩, failure := none, registrations := 1 } := by
    rw [AddClient_eq_build fingerprint register₁ r t o₁ hnew, buildAndRegister, hok]
  have hsecond : AddClient fingerprint register₂ (r.insert t ⟨c, fingerprint o₁⟩) t o₂ =
      { registry := r.insert t ⟨c, fingerprint o₁⟩, failure := none, registrations := 0 } := by
    unfold AddClient
    rw [AList.lookup_insert]
    simp [hfp]
  simp [addClientTwice, hfirst, hsecond, GetClient, AList.lookup_insert]

/-- Witness of C1 (amended): tenant-a on the empty registry with an accepting
certificate authority and two option sets that share the key K1. -/
theorem addClient_twice_registers_once_witness :
    (addClientTwice sampleFingerprint acceptingCA acceptingCA ∅ "tenant-a"
        (sampleOptions "K1" "a@example.com") (sampleOptions "K1" "b@example.com")).1.registrations
      + (addClientTwice sampleFingerprint acceptingCA acceptingCA ∅ "tenant-a"
        (sampleOptions "K1" "a@example.com") (sampleOptions "K1" "b@example.com")).2.registrations
      = 1 :=
  (addClient_twice_registers_once sampleFingerprint acceptingCA acceptingCA ∅ "tenant-a"
    (sampleOptions "K1" "a@example.com") (sampleOptions "K1" "b@example.com") "a@example.com"
    rfl (fun e he => by simp at he) rfl).1

/-- C2.  For every key fingerprint function, every string `h` (well-formed or
not) and every private key `k`, `IsKeyCheckSumCached(h, k)` is a boolean that is
true exactly when `h` is the fingerprint of `k` and false exactly when it is
not. -/
theorem isKeyCheckSumCached_iff {Key : Type} (keyFingerprint : Key → String)
    (h : String) (k : Key) :
    (IsKeyCheckSumCached keyFingerprint h k = true ↔ h = keyFingerprint k) ∧
      (IsKeyCheckSumCached keyFingerprint h k = false ↔ h ≠ keyFingerprint k) := by
  simp [IsKeyCheckSumCached]

/-- C3.  For every registry state and tenant `t`, `GetClient(t)` after
`RemoveClient(t)` fails with `NotFound`, whether or not `t` had an entry. -/
theorem getClient_after_removeClient {Client : Type} (r : Registry Client) (t : String) :
    GetClient (RemoveClient r t) t = .error RegistryError.NotFound := by
  unfold GetClient RemoveClient
  rw [AList.lookup_erase]

/-- C4.  When `AddClient(t, o)` has to build a client (no entry for `t` under the
fingerprint of `o`) and the registration fails with `e`, the call reports `e` to
its caller and leaves the registry exactly as it was, so `GetClient(t)` answers
as before the call. -/
theorem addClient_failure_reported_registry_unchanged {Key Client : Type}
    (fingerprint : NewClientOptions Key → String)
    (register : NewClientOptions Key → Except RegistryError Client)
    (r : Registry Client) (t : String) (o : NewClientOptions Key) (e : RegistryError)
    (hbuild : ∀ en, r.lookup t = some en → en.credentialFingerprint ≠ fingerprint o)
    (hfail : register o = .error e) :
    (AddClient fingerprint register r t o).failure = some e ∧
      (AddClient fingerprint register r t o).registry = r ∧
      GetClient (AddClient fingerprint register r t o).registry t = GetClient r t := by
  rw [AddClient_eq_build fingerprint register r t o hbuild, buildAndRegister, hfail]
  exact ⟨rfl, rfl, rfl⟩

/-- Witness of C4: the rejecting certificate authority on the empty registry. -/
theorem addClient_failure_reported_registry_unchanged_witness :
    (AddClient sampleFingerprint rejectingCA ∅ "tenant-a"
        (sampleOptions "K1" "a@example.com")).failure = some RegistryError.RegistrationFailed ∧
      (AddClient sampleFingerprint rejectingCA ∅ "tenant-a"
        (sampleOptions "K1" "a@example.com")).registry = ∅ :=
  have h := addClient_failure_reported_registry_unchanged sampleFingerprint rejectingCA ∅
    "tenant-a" (sampleOptions "K1" "a@example.com") RegistryError.RegistrationFailed
    (fun en hen => by simp at hen) rfl
  ⟨h.1, h.2.1⟩

end Accounts

/-! ## Theorems on `OrderApplyConfiguration` -/

namespace ApplyConfigurations

open Go

variable {Time SpecT StatusT : Type}

/-- The loop of `WithOwnerReferences` over non-nil pointers never panics: it
appends, one after the other, the cells the pointers point to. -/
theorem foldlM_appendOwnerReference (extra : Nat → Nat → Nat)
    (values : List (Go.Pointer OwnerReferenceApplyConfiguration))
    (hnil : ∀ v ∈ values, v ≠ none)
    (st : Go.Heap OwnerReferenceApplyConfiguration × Go.Slice OwnerReferenceApplyConfiguration) :
    values.foldlM (appendOwnerReference extra) st =
      .ok ((values.filterMap id).foldl
        (fun st a => Go.Slice.append extra st.1 st.2 (st.1.cells a)) st) := by
  induction values generalizing st with
  | nil => rfl
  | cons v values ih =>
    cases v with
    | none => exact absurd rfl (hnil none (List.mem_cons_self _ _))
    | some p =>
      rw [List.foldlM_cons]
      exact ih (fun v hv => hnil v (List.mem_cons_of_mem _ hv)) _

/-- `WithOwnerReferences` returns whenever its loop does, with the loop's heap
and slice. -/
theorem WithOwnerReferences_of_loop (extra : Nat → Nat → Nat)
    (h : Go.Heap OwnerReferenceApplyConfiguration)
    (b : OrderApplyConfiguration Time SpecT StatusT)
    (values : List (Go.Pointer OwnerReferenceApplyConfiguration))
    (st : Go.Heap OwnerReferenceApplyConfiguration × Go.Slice OwnerReferenceApplyConfiguration)
    (hst : values.foldlM (appendOwnerReference extra) (h, ownerReferencesOf b) = .ok st) :
    ∃ c, WithOwnerReferences extra h b values = .ok (st.1, c) ∧
      ownerReferencesOf c = st.2 := by
  rcases b with ⟨t, _ | m, s, sts⟩
  · have h' : values.foldlM (appendOwnerReference extra) (h, none) = .ok st := hst
    refine ⟨⟨t, some { OwnerReferences := st.2 }, s, sts⟩, ?_, rfl⟩
    simp only [WithOwnerReferences, ensureObjectMetaApplyConfigurationExists, derefObjectMeta]
    show (do let st ← values.foldlM (appendOwnerReference extra) (h, none); _) = _
    rw [h']
    rfl
  · have h' : values.foldlM (appendOwnerReference extra) (h, m.OwnerReferences) = .ok st := hst
    refine ⟨⟨t, some { m with OwnerReferences := st.2 }, s, sts⟩, ?_, rfl⟩
    simp only [WithOwnerReferences, ensureObjectMetaApplyConfigurationExists, derefObjectMeta]
    show (do let st ← values.foldlM (appendOwnerReference extra) (h, m.OwnerReferences); _) = _
    rw [h']
    rfl

/-- `WithFinalizers` always returns, with the heap and slice its loop leaves. -/
theorem WithFinalizers_of_loop (extra : Nat → Nat → Nat) (h : Go.Heap String)
    (b : OrderApplyConfiguration Time SpecT StatusT) (values : Go.Slice String) :
    ∃ c, WithFinalizers extra h b values =
        .ok ((Slice.appendValues extra h (finalizersOf b) values).1, c) ∧
      finalizersOf c = (Slice.appendValues extra h (finalizersOf b) values).2 := by
  rcases b with ⟨t, _ | m, s, sts⟩
  · exact ⟨_, rfl, rfl⟩
  · exact ⟨_, rfl, rfl⟩

/-- `WithOwnerReferences` on non-nil pointers that are allocated and point
outside the unused capacity of `OwnerReferences`: it returns, the slice grows by
the values pointed to at the start, it stays valid, and every protected address
keeps its content and stays protected. -/
theorem WithOwnerReferences_spec (extra : Nat → Nat → Nat) (R : Nat → Prop)
    (h : Go.Heap OwnerReferenceApplyConfiguration)
    (b : OrderApplyConfiguration Time SpecT StatusT)
    (values : List (Go.Pointer OwnerReferenceApplyConfiguration))
    (hnil : ∀ v ∈ values, v ≠ none)
    (hv : Slice.Valid h (ownerReferencesOf b)) (hR : Slice.Protects h (ownerReferencesOf b) R)
    (hin : ∀ p, some p ∈ values → R p) :
    ∃ h' c, WithOwnerReferences extra h b values = .ok (h', c) ∧
      Slice.elems h' (ownerReferencesOf c) =
        Slice.elems h (ownerReferencesOf b) ++ pointees h values ∧
      Slice.Valid h' (ownerReferencesOf c) ∧ Slice.Protects h' (ownerReferencesOf c) R ∧
      ∀ a, R a → h'.cells a = h.cells a := by
  have hR' : ∀ a ∈ values.filterMap id, R a := by
    intro a ha
    obtain ⟨v, hv, hva⟩ := List.mem_filterMap.mp ha
    have hva' : v = some a := hva
    exact hin a (hva' ▸ hv)
  obtain ⟨he, hv', hP, hc⟩ :=
    Slice.foldl_append_spec extra R (values.filterMap id) h (ownerReferencesOf b) hv hR hR'
  obtain ⟨c, hc₁, hc₂⟩ := WithOwnerReferences_of_loop extra h b values _
    (foldlM_appendOwnerReference extra values hnil (h, ownerReferencesOf b))
  refine ⟨_, c, hc₁, ?_, ?_, ?_, hc⟩
  · rw [hc₂]; exact he
  · rw [hc₂]; exact hv'
  · rw [hc₂]; exact hP

/-- C6.  For all strings `name` and `namespace`, `Order(name, namespace)` returns
the configuration with `Name = name`, `Namespace = namespace`, `Kind = "Order"`,
`APIVersion = "acme.cert-manager.io/v1"`, `Spec` and `Status` nil and every other
metadata field unset. -/
theorem Order_constructs (name namespace_ : String) :
    (Order name namespace_ : Except String (OrderApplyConfiguration Time SpecT StatusT)) =
      .ok { TypeMeta := { Kind := some "Order", APIVersion := some "acme.cert-manager.io/v1" },
            ObjectMeta := some
              { Name := some name, GenerateName := none, Namespace := some namespace_,
                UID := none, ResourceVersion := none, Generation := none,
                CreationTimestamp := none, DeletionTimestamp := none,
                DeletionGracePeriodSeconds := none, Labels := none, Annotations := none,
                OwnerReferences := none, Finalizers := none },
            Spec := none, Status := none } := by
  rfl

/-- C7.  For each of the thirteen single-valued setters, every configuration `b`
and all values `v₁`, `v₂`: `b.WithX(v₁).WithX(v₂)` is the configuration
`b.WithX(v₂)`, no call panics, and in it the field `X` holds `v₂` (last call
wins). -/
theorem single_valued_setters_last_call_wins (b : OrderApplyConfiguration Time SpecT StatusT)
    (s₁ s₂ : String) (i₁ i₂ : Int) (t₁ t₂ : Time) (sp₁ sp₂ : Option SpecT)
    (st₁ st₂ : Option StatusT) :
    (WithKind (WithKind b s₁) s₂ = WithKind b s₂ ∧
      (WithKind b s₂).TypeMeta.Kind = some s₂) ∧
    (WithAPIVersion (WithAPIVersion b s₁) s₂ = WithAPIVersion b s₂ ∧
      (WithAPIVersion b s₂).TypeMeta.APIVersion = some s₂) ∧
    (twice WithName b s₁ s₂ = WithName b s₂ ∧
      (WithName b s₂).map (metaField fun m => m.Name) = .ok (some s₂)) ∧
    (twice WithGenerateName b s₁ s₂ = WithGenerateName b s₂ ∧
      (WithGenerateName b s₂).map (metaField fun m => m.GenerateName) = .ok (some s₂)) ∧
    (twice WithNamespace b s₁ s₂ = WithNamespace b s₂ ∧
      (WithNamespace b s₂).map (metaField fun m => m.Namespace) = .ok (some s₂)) ∧
    (twice WithUID b s₁ s₂ = WithUID b s₂ ∧
      (WithUID b s₂).map (metaField fun m => m.UID) = .ok (some s₂)) ∧
    (twice WithResourceVersion b s₁ s₂ = WithResourceVersion b s₂ ∧
      (WithResourceVersion b s₂).map (metaField fun m => m.ResourceVersion) =
        .ok (some s₂)) ∧
    (twice WithGeneration b i₁ i₂ = WithGeneration b i₂ ∧
      (WithGeneration b i₂).map (metaField fun m => m.Generation) = .ok (some i₂)) ∧
    (twice WithCreationTimestamp b t₁ t₂ = WithCreationTimestamp b t₂ ∧
      (WithCreationTimestamp b t₂).map (metaField fun m => m.CreationTimestamp) =
        .ok (some t₂)) ∧
    (twice WithDeletionTimestamp b t₁ t₂ = WithDeletionTimestamp b t₂ ∧
      (WithDeletionTimestamp b t₂).map (metaField fun m => m.DeletionTimestamp) =
        .ok (some t₂)) ∧
    (twice WithDeletionGracePeriodSeconds b i₁ i₂ = WithDeletionGracePeriodSeconds b i₂ ∧
      (WithDeletionGracePeriodSeconds b i₂).map
        (metaField fun m => m.DeletionGracePeriodSeconds) = .ok (some i₂)) ∧
    (WithSpec (WithSpec b sp₁) sp₂ = WithSpec b sp₂ ∧ (WithSpec b sp₂).Spec = sp₂) ∧
    (WithStatus (WithStatus b st₁) st₂ = WithStatus b st₂ ∧
      (WithStatus b st₂).Status = st₂) := by
  rcases b with ⟨t, _ | m, s, st⟩ <;>
    exact ⟨⟨rfl, rfl⟩, ⟨rfl, rfl⟩, ⟨rfl, rfl⟩, ⟨rfl, rfl⟩, ⟨rfl, rfl⟩, ⟨rfl, rfl⟩, ⟨rfl, rfl⟩,
      ⟨rfl, rfl⟩, ⟨rfl, rfl⟩, ⟨rfl, rfl⟩, ⟨rfl, rfl⟩, ⟨rfl, rfl⟩, ⟨rfl, rfl⟩⟩

/-- C9 (as stated, refuted).  `b.Finalizers` is `base[:2] = [a b]` of the array
`base = [a b c]`, and `values` is `base[1:3] = [b c]`, which shares the cell of
unused capacity.  The first append writes `b` over `c` before the loop reads it:
`b.WithFinalizers(values...)` leaves `[a b b b]`, not the previous finalizers
followed by the values, `[a b b c]`. -/
theorem withFinalizers_shared_storage :
    (WithFinalizers Go.exactFit sampleStrings sampleFinalized (some ⟨1, 2, 2⟩)).map
        (fun r => Slice.elems r.1 (finalizersOf r.2)) = .ok ["a", "b", "b", "b"] ∧
      Slice.elems sampleStrings (finalizersOf sampleFinalized) ++
        Slice.elems sampleStrings (some ⟨1, 2, 2⟩) = ["a", "b", "b", "c"] := by
  constructor
  · rfl
  · rfl

/-- C9 (amended).  For every configuration `b` with a valid `Finalizers` slice
and all valid slices of strings `xs`, `ys`, `zs`, none of which has an element
stored in the unused capacity of the backing array of `b.Finalizers`, where `zs`
holds the elements of `xs` followed by those of `ys`: `b.WithFinalizers(xs...)`
returns and its `Finalizers` are those of `b` followed by the elements of `xs` in
order, duplicates kept; a further `WithFinalizers(ys...)` returns with the
elements of `ys` after them; and `b.WithFinalizers(zs...)` returns with the same
`Finalizers` as the two calls: the same elements, and nil in the one exactly when
nil in the other. -/
theorem withFinalizers_appends (extra : Nat → Nat → Nat) (h : Go.Heap String)
    (b : OrderApplyConfiguration Time SpecT StatusT) (xs ys zs : Go.Slice String)
    (hb : Slice.Valid h (finalizersOf b))
    (hxs : Slice.Valid h xs) (hys : Slice.Valid h ys) (hzs : Slice.Valid h zs)
    (axs : Slice.Apart (finalizersOf b) xs) (ays : Slice.Apart (finalizersOf b) ys)
    (azs : Slice.Apart (finalizersOf b) zs)
    (hcat : Slice.elems h zs = Slice.elems h xs ++ Slice.elems h ys) :
    ∃ h₁ c₁, WithFinalizers extra h b xs = .ok (h₁, c₁) ∧
      Slice.elems h₁ (finalizersOf c₁) = Slice.elems h (finalizersOf b) ++ Slice.elems h xs ∧
      ∃ h₂ c₂, WithFinalizers extra h₁ c₁ ys = .ok (h₂, c₂) ∧
        Slice.elems h₂ (finalizersOf c₂) =
          Slice.elems h (finalizersOf b) ++ Slice.elems h xs ++ Slice.elems h ys ∧
        ∃ h₃ c₃, WithFinalizers extra h b zs = .ok (h₃, c₃) ∧
          Slice.elems h₃ (finalizersOf c₃) = Slice.elems h₂ (finalizersOf c₂) ∧
          (finalizersOf c₃).isNone = (finalizersOf c₂).isNone := by
  have hR : Slice.Protects h (finalizersOf b)
      (fun a => Slice.Holds xs a ∨ Slice.Holds ys a ∨ Slice.Holds zs a) := by
    intro a ha
    have hbound : ∀ s : Go.Slice String, Slice.Valid h s → Slice.Holds s a → a < h.size := by
      intro s hs hsa
      obtain ⟨h1, h2⟩ := hs
      obtain ⟨h3, h4⟩ := hsa
      omega
    rcases ha with ha | ha | ha
    · exact ⟨hbound xs hxs ha, axs a ha⟩
    · exact ⟨hbound ys hys ha, ays a ha⟩
    · exact ⟨hbound zs hzs ha, azs a ha⟩
  obtain ⟨c₁, hc₁, hf₁⟩ := WithFinalizers_of_loop extra h b xs
  obtain ⟨he₁, hv₁, hR₁, hcells₁⟩ :=
    Slice.appendValues_spec extra _ h (finalizersOf b) xs hb hR (fun a ha => Or.inl ha)
  rw [← hf₁] at he₁ hv₁ hR₁
  obtain ⟨c₂, hc₂, hf₂⟩ := WithFinalizers_of_loop extra
    (Slice.appendValues extra h (finalizersOf b) xs).1 c₁ ys
  obtain ⟨he₂, -, -, -⟩ :=
    Slice.appendValues_spec extra _ _ (finalizersOf c₁) ys hv₁ hR₁
      (fun a ha => Or.inr (Or.inl ha))
  rw [← hf₂] at he₂
  obtain ⟨c₃, hc₃, hf₃⟩ := WithFinalizers_of_loop extra h b zs
  obtain ⟨he₃, -, -, -⟩ :=
    Slice.appendValues_spec extra _ h (finalizersOf b) zs hb hR
      (fun a ha => Or.inr (Or.inr ha))
  rw [← hf₃] at he₃
  have hys' : Slice.elems (Slice.appendValues extra h (finalizersOf b) xs).1 ys =
      Slice.elems h ys :=
    Slice.elems_congr h _ ys (fun a ha => hcells₁ a (Or.inr (Or.inl ha)))
  have htwo : Slice.elems (Slice.appendValues extra
        (Slice.appendValues extra h (finalizersOf b) xs).1 (finalizersOf c₁) ys).1
        (finalizersOf c₂) =
      Slice.elems h (finalizersOf b) ++ Slice.elems h xs ++ Slice.elems h ys := by
    rw [he₂, he₁, hys']
  have hlen : (Slice.header zs).len = (Slice.header xs).len + (Slice.header ys).len := by
    have hl := congrArg List.length hcat
    rwa [List.length_append, Slice.length_elems, Slice.length_elems, Slice.length_elems] at hl
  refine ⟨_, c₁, hc₁, he₁, _, c₂, hc₂, htwo, _, c₃, hc₃, ?_, ?_⟩
  · rw [he₃, htwo, hcat, List.append_assoc]
  · rw [Bool.eq_iff_iff, hf₃, hf₂, hf₁, Slice.appendValues_isNone, Slice.appendValues_isNone,
      Slice.appendValues_isNone, hlen]
    constructor
    · rintro ⟨h1, h2⟩
      exact ⟨⟨h1, by omega⟩, by omega⟩
    · rintro ⟨⟨h1, h2⟩, h3⟩
      exact ⟨h1, by omega⟩

/-- Witness of C9 (amended): `b.Finalizers` is `base[:2] = [a b]`, and `x`, `y`
are stored outside the array `base`. -/
theorem withFinalizers_appends_witness :
    ∃ h₁ c₁, WithFinalizers Go.exactFit sampleStrings sampleFinalized (some ⟨3, 1, 1⟩) =
        .ok (h₁, c₁) ∧
      Slice.elems h₁ (finalizersOf c₁) =
        Slice.elems sampleStrings (finalizersOf sampleFinalized) ++
          Slice.elems sampleStrings (some ⟨3, 1, 1⟩) ∧
      ∃ h₂ c₂, WithFinalizers Go.exactFit h₁ c₁ (some ⟨4, 1, 1⟩) = .ok (h₂, c₂) ∧
        Slice.elems h₂ (finalizersOf c₂) =
          Slice.elems sampleStrings (finalizersOf sampleFinalized) ++
            Slice.elems sampleStrings (some ⟨3, 1, 1⟩) ++
            Slice.elems sampleStrings (some ⟨4, 1, 1⟩) ∧
        ∃ h₃ c₃, WithFinalizers Go.exactFit sampleStrings sampleFinalized (some ⟨3, 2, 2⟩) =
            .ok (h₃, c₃) ∧
          Slice.elems h₃ (finalizersOf c₃) = Slice.elems h₂ (finalizersOf c₂) ∧
          (finalizersOf c₃).isNone = (finalizersOf c₂).isNone :=
  withFinalizers_appends Go.exactFit sampleStrings sampleFinalized (some ⟨3, 1, 1⟩)
    (some ⟨4, 1, 1⟩) (some ⟨3, 2, 2⟩)
    ⟨by decide, by decide⟩ ⟨by decide, by decide⟩ ⟨by decide, by decide⟩
    ⟨by decide, by decide⟩
    (fun a ha hs => by
      simp only [Slice.Holds, Slice.InSpare, Slice.header, finalizersOf, metaField,
        sampleFinalized, Option.bind] at ha hs
      omega)
    (fun a ha hs => by
      simp only [Slice.Holds, Slice.InSpare, Slice.header, finalizersOf, metaField,
        sampleFinalized, Option.bind] at ha hs
      omega)
    (fun a ha hs => by
      simp only [Slice.Holds, Slice.InSpare, Slice.header, finalizersOf, metaField,
        sampleFinalized, Option.bind] at ha hs
      omega)
    rfl

/-- C10 (as stated, refuted).  `b.OwnerReferences` is `refs[:1] = [A]` of the
array `refs = [A B]`, and the values are the non-nil pointers `&X`, `&refs[1]`.
Appending `X` writes it over `B`, the cell the second pointer points to, before
the loop dereferences it: `b.WithOwnerReferences(&X, &refs[1])` leaves `[A X X]`,
not the previous owner references followed by the values pointed to, `[A X B]`. -/
theorem withOwnerReferences_shared_storage :
    (WithOwnerReferences Go.exactFit sampleOwners sampleOwned [some 2, some 1]).map
        (fun r => Slice.elems r.1 (ownerReferencesOf r.2)) =
        .ok [sampleOwner "A", sampleOwner "X", sampleOwner "X"] ∧
      Slice.elems sampleOwners (ownerReferencesOf sampleOwned) ++
        pointees sampleOwners [some 2, some 1] =
        [sampleOwner "A", sampleOwner "X", sampleOwner "B"] := by
  constructor
  · rfl
  · rfl

/-- C10 (amended).  For every configuration `b` with a valid `OwnerReferences`
slice and all lists `values`, `more` of non-nil pointers to allocated owner
references, none of which points into the unused capacity of the backing array
of `b.OwnerReferences`: `b.WithOwnerReferences(values...)` returns and its
`OwnerReferences` are those of `b` followed by the values pointed to, in order; a
further `WithOwnerReferences(more...)` returns with the values of both calls
accumulated after those of `b`. -/
theorem withOwnerReferences_appends (extra : Nat → Nat → Nat)
    (h : Go.Heap OwnerReferenceApplyConfiguration)
    (b : OrderApplyConfiguration Time SpecT StatusT)
    (values more : List (Go.Pointer OwnerReferenceApplyConfiguration))
    (hvalues : ∀ v ∈ values, v ≠ none) (hmore : ∀ v ∈ more, v ≠ none)
    (hb : Slice.Valid h (ownerReferencesOf b))
    (halloc : ∀ p, some p ∈ values ++ more → p < h.size)
    (hapart : ∀ p, some p ∈ values ++ more → ¬ Slice.InSpare (ownerReferencesOf b) p) :
    ∃ h₁ c₁, WithOwnerReferences extra h b values = .ok (h₁, c₁) ∧
      Slice.elems h₁ (ownerReferencesOf c₁) =
        Slice.elems h (ownerReferencesOf b) ++ pointees h values ∧
      ∃ h₂ c₂, WithOwnerReferences extra h₁ c₁ more = .ok (h₂, c₂) ∧
        Slice.elems h₂ (ownerReferencesOf c₂) =
          Slice.elems h (ownerReferencesOf b) ++ pointees h values ++ pointees h more := by
  have hR : Slice.Protects h (ownerReferencesOf b) (fun p => some p ∈ values ++ more) :=
    fun p hp => ⟨halloc p hp, hapart p hp⟩
  obtain ⟨h₁, c₁, hc₁, he₁, hv₁, hR₁, hcells₁⟩ :=
    WithOwnerReferences_spec extra _ h b values hvalues hb hR
      (fun p hp => List.mem_append_left _ hp)
  obtain ⟨h₂, c₂, hc₂, he₂, -, -, -⟩ :=
    WithOwnerReferences_spec extra _ h₁ c₁ more hmore hv₁ hR₁
      (fun p hp => List.mem_append_right _ hp)
  refine ⟨h₁, c₁, hc₁, he₁, h₂, c₂, hc₂, ?_⟩
  have hsame : pointees h₁ more = pointees h more := by
    unfold pointees
    apply List.map_congr_left
    intro a ha
    obtain ⟨v, hv, hva⟩ := List.mem_filterMap.mp ha
    have hva' : v = some a := hva
    exact hcells₁ a (List.mem_append_right _ (hva' ▸ hv))
  rw [he₂, he₁, hsame]

/-- Witness of C10 (amended): `b.OwnerReferences` is `refs[:1] = [A]`; first
`&X`, which is stored outside the array `refs`, then `&refs[0]`, an element in
use. -/
theorem withOwnerReferences_appends_witness :
    ∃ h₁ c₁, WithOwnerReferences Go.exactFit sampleOwners sampleOwned [some 2] =
        .ok (h₁, c₁) ∧
      Slice.elems h₁ (ownerReferencesOf c₁) =
        Slice.elems sampleOwners (ownerReferencesOf sampleOwned) ++
          pointees sampleOwners [some 2] ∧
      ∃ h₂ c₂, WithOwnerReferences Go.exactFit h₁ c₁ [some 0] = .ok (h₂, c₂) ∧
        Slice.elems h₂ (ownerReferencesOf c₂) =
          Slice.elems sampleOwners (ownerReferencesOf sampleOwned) ++
            pointees sampleOwners [some 2] ++ pointees sampleOwners [some 0] :=
  withOwnerReferences_appends Go.exactFit sampleOwners sampleOwned [some 2] [some 0]
    (by simp) (by simp) ⟨by decide, by decide⟩
    (fun p hp => by
      simp only [List.singleton_append, List.mem_cons, Option.some.injEq, List.mem_singleton,
        List.not_mem_nil, or_false] at hp
      rcases hp with rfl | rfl <;> decide)
    (fun p hp hs => by
      simp only [List.singleton_append, List.mem_cons, Option.some.injEq, List.mem_singleton,
        List.not_mem_nil, or_false] at hp
      simp only [Slice.InSpare, Slice.header, ownerReferencesOf, metaField, sampleOwned,
        Option.bind] at hs
      omega)

end ApplyConfigurations

/-! ## Theorems on the stub registry -/

namespace AccountsTest

variable {σ Options Key Client Err : Type}

/-- C12.  For every `FakeRegistry` `f` whose five stub fields are set and for all
arguments, each method is exactly one call of its stub with the same arguments:
as calls on the world, `f.AddClient(uid, o)` is `f.AddClientFunc(uid, o)`,
`f.RemoveClient(uid)` is `f.RemoveClientFunc(uid)`, `f.GetClient(uid)` is
`f.GetClientFunc(uid)` and returns its (client, error) pair,
`f.ListClients()` is `f.ListClientsFunc()` and `f.IsKeyCheckSumCached(h, k)` is
`f.IsKeyCheckSumCachedFunc(h, k)`: same result, same effect, nothing else. -/
theorem fakeRegistry_delegates (f : FakeRegistry σ Options Key Client Err)
    (add : String → Options → Effect σ Unit) (remove : String → Effect σ Unit)
    (get : String → Effect σ (Option Client × Option Err))
    (list : Effect σ (Option (AList fun _ : String => Option Client)))
    (cached : String → Option Key → Effect σ Bool)
    (hadd : f.AddClientFunc = some add) (hremove : f.RemoveClientFunc = some remove)
    (hget : f.GetClientFunc = some get) (hlist : f.ListClientsFunc = some list)
    (hcached : f.IsKeyCheckSumCachedFunc = some cached)
    (uid : String) (o : Options) (h : String) (k : Option Key) :
    f.AddClient uid o = add uid o ∧
      f.RemoveClient uid = remove uid ∧
      f.GetClient uid = get uid ∧
      f.ListClients = list ∧
      f.IsKeyCheckSumCached h k = cached h k := by
  refine ⟨?_, ?_, ?_, ?_, ?_⟩
  · rw [FakeRegistry.AddClient, hadd]
  · rw [FakeRegistry.RemoveClient, hremove]
  · rw [FakeRegistry.GetClient, hget]
  · rw [FakeRegistry.ListClients, hlist]
  · rw [FakeRegistry.IsKeyCheckSumCached, hcached]

/-- Witness of C12: on the recording registry, started with an empty log, each
method leaves exactly one record, that of its own stub with the arguments it was
given, and returns what the stub returned. -/
theorem fakeRegistry_delegates_witness :
    recordingRegistry.AddClient "tenant-a" "options-1" [] =
        .ok ((), [("AddClientFunc", ["tenant-a", "options-1"])]) ∧
      recordingRegistry.RemoveClient "tenant-a" [] =
        .ok ((), [("RemoveClientFunc", ["tenant-a"])]) ∧
      recordingRegistry.GetClient "tenant-a" [] =
        .ok ((some "client-tenant-a", none), [("GetClientFunc", ["tenant-a"])]) ∧
      recordingRegistry.ListClients [] = .ok (none, [("ListClientsFunc", [])]) ∧
      recordingRegistry.IsKeyCheckSumCached "hash-1" (some 7) [] =
        .ok (true, [("IsKeyCheckSumCachedFunc", ["hash-1"])]) :=
  have h := fakeRegistry_delegates recordingRegistry recordAdd recordRemove recordGet
    recordList recordCached rfl rfl rfl rfl rfl "tenant-a" "options-1" "hash-1" (some 7)
  ⟨(congrFun h.1 []).trans rfl, (congrFun h.2.1 []).trans rfl,
    (congrFun h.2.2.1 []).trans rfl, (congrFun h.2.2.2.1 []).trans rfl,
    (congrFun h.2.2.2.2 []).trans rfl⟩

end AccountsTest

end CertManager
